import Mathlib

/-!
Verification development for the musiclab procedural audio-synthesis engine.

Shallow embedding of the numeric core of the repository:
floating-point samples are modelled as real numbers, numpy arrays as
`List ℝ`, Python `int(...)` truncation as `pyTrunc`, and numpy/scipy
primitives (`linspace`, FFT, `tanh`, …) by their mathematical definitions.
Each embedded definition mirrors one function of the source tree
(`scripts/audio/...`); theorems below settle the specification claims.
-/

open Real

namespace MusicLab

/-! ## Constants (`scripts/audio/core/constants.py`) -/

/-- `A4_FREQUENCY = 440.0` -/
def A4_FREQUENCY : ℝ := 440

/-- `A4_MIDI = 69` -/
def A4_MIDI : ℤ := 69

/-- `PITCH_ERROR_THRESHOLD_CENTS = 10` -/
def PITCH_ERROR_THRESHOLD_CENTS : ℝ := 10

/-- `midi_to_frequency` (`constants.py` lines 85-87):
`A4_FREQUENCY * 2.0 ** ((midi - A4_MIDI) / 12.0)`.  The Python function is
total: it performs no range validation on `midi`. -/
noncomputable def midi_to_frequency (midi : ℤ) : ℝ :=
  A4_FREQUENCY * (2 : ℝ) ^ (((midi : ℝ) - (A4_MIDI : ℝ)) / 12)

/-- Calling `midi_to_frequency` never raises: embedded as an always-`ok`
`Except`, mirroring that the Python body has no `raise` and no validation. -/
noncomputable def midiToFrequencyCall (midi : ℤ) : Except String ℝ :=
  .ok (midi_to_frequency midi)

/-! ## Python numeric helpers -/

/-- Python `int(x)` / numpy `astype` truncation toward zero of a real. -/
noncomputable def pyTrunc (x : ℝ) : ℤ :=
  if 0 ≤ x then ⌊x⌋ else -⌊-x⌋

/-- `np.clip(x, lo, hi)` on one sample (`lo ≤ hi` in all uses). -/
noncomputable def clip (x lo hi : ℝ) : ℝ := max lo (min x hi)

/-- `np.linspace(a, b, n)`: `n` evenly spaced samples from `a` to `b`
inclusive; `n = 1` gives `[a]`, `n = 0` gives `[]`. -/
noncomputable def linspace (a b : ℝ) (n : ℕ) : List ℝ :=
  if n = 1 then [a]
  else (List.range n).map (fun (i : ℕ) => a + (b - a) * (i : ℝ) / ((n : ℝ) - 1))

/-! ## `AudioProcessor` (`scripts/audio/processors/audio_processor.py`) -/

/-- `AudioProcessor.to_int16` (lines 36-40): clip to `[-1, 1]`, scale by
`32767`, truncate to integer (numpy `astype(np.int16)` truncates toward
zero; the scaled value is already within int16 range). -/
noncomputable def to_int16 (audio : List ℝ) : List ℤ :=
  audio.map (fun x => pyTrunc (clip x (-1) 1 * 32767))

/-- `np.max(np.abs(audio))` (0 for the empty buffer, on which numpy would
raise; `normalize` is only ever called on rendered, non-empty buffers). -/
noncomputable def maxAbs (audio : List ℝ) : ℝ :=
  audio.foldr (fun x m => max |x| m) 0

/-- `AudioProcessor.normalize` (lines 18-34): scale so the peak equals
`target_peak`, then apply `volume`; identity when the buffer is silent. -/
noncomputable def normalize (audio : List ℝ) (target_peak volume : ℝ) : List ℝ :=
  if 0 < maxAbs audio then
    audio.map (fun x => x * (target_peak / maxAbs audio) * volume)
  else audio

/-- `AudioProcessor.soft_clip` (lines 114-126): samples with
`|x| > threshold` become `threshold * sign(x) * tanh(|x| / threshold)`,
others are unchanged. -/
noncomputable def soft_clip (audio : List ℝ) (threshold : ℝ) : List ℝ :=
  audio.map (fun x =>
    if threshold < |x| then threshold * Real.sign x * Real.tanh (|x| / threshold)
    else x)

/-- `EnhancedPianoGenerator._get_volume_compensation` (`piano.py`
lines 158-179): register-dependent loudness multiplier. -/
noncomputable def volume_compensation (midi : ℤ) : ℝ :=
  if midi ≤ 36 then 1.5
  else if midi ≤ 48 then 1.35
  else if midi ≤ 60 then 1.15
  else if midi ≤ 72 then 1.0
  else if midi ≤ 84 then 0.85
  else if midi ≤ 96 then 0.75
  else 0.65

/-! ## `AudioGenerator._create_time_array` (`scripts/audio/generators/base.py`) -/

/-- `_create_time_array` (lines 32-35): `num_samples = int(sample_rate *
duration)`; `np.linspace(0, duration, num_samples)`.  numpy raises
(`ValueError`) when the requested count is negative; there is no duration
validation, so a non-positive duration whose truncated sample count is `0`
silently yields an empty array. -/
noncomputable def createTimeArray (sample_rate : ℕ) (duration : ℝ) :
    Except String (List ℝ) :=
  let n := pyTrunc ((sample_rate : ℝ) * duration)
  if n < 0 then .error "ValueError: number of samples must be non-negative"
  else .ok (linspace 0 duration n.toNat)

/-! ## `EnvelopeGenerator.adsr` (`scripts/audio/processors/envelope_generator.py`)

The Python function allocates `np.zeros(num_samples)` and writes the
attack, decay, sustain and release segments consecutively from position
`pos = 0`; each write advances `pos` by the segment's sample count, so
`pos` always equals the length of the written prefix.  The embedding
builds that prefix by concatenation (`adsrE1` … `adsrE4`) with the same
guards the code uses, then pads the untouched tail with the zeros of the
original allocation.  Sample counts are the Python ints
`int(config.attack * sample_rate)` etc., modelled as `ℤ` via `pyTrunc`. -/

/-- `EnvelopeConfig` (`scripts/audio/core/config.py` lines 33-44). -/
structure EnvelopeConfig where
  attack : ℝ
  decay : ℝ
  sustain : ℝ
  release : ℝ
  attack_curve : ℝ
  decay_curve : ℝ
  release_curve : ℝ

/-- Default values of `EnvelopeConfig`. -/
noncomputable def envelopeConfigDefault : EnvelopeConfig :=
  ⟨0.01, 0.1, 0.7, 0.3, 1.0, 1.0, 1.0⟩

/-- Attack segment (lines 40-46): `t^attack_curve` over `linspace(0,1,n)`
when the curve is not `1.0`, else the plain linear ramp. -/
noncomputable def attackSeg (cfg : EnvelopeConfig) (n : ℕ) : List ℝ :=
  if cfg.attack_curve ≠ 1 then
    (linspace 0 1 n).map (fun t => t ^ cfg.attack_curve)
  else linspace 0 1 n

/-- Decay segment (lines 48-56): `1 - (1 - sustain) * t^decay_curve` when
curved, else `linspace(1, sustain, n)`. -/
noncomputable def decaySeg (cfg : EnvelopeConfig) (n : ℕ) : List ℝ :=
  if cfg.decay_curve ≠ 1 then
    (linspace 0 1 n).map (fun t => 1 - (1 - cfg.sustain) * t ^ cfg.decay_curve)
  else linspace 1 cfg.sustain n

/-- Sustain segment (lines 58-63): `sustain * exp(-0.5 * t)`. -/
noncomputable def sustainSeg (cfg : EnvelopeConfig) (n : ℕ) : List ℝ :=
  (linspace 0 1 n).map (fun t => cfg.sustain * Real.exp (-0.5 * t))

/-- Release segment (lines 65-75): from `start_level`, either the curved
ramp `start_level * (1 - t^release_curve)` or `start_level * exp(-3t)`. -/
noncomputable def releaseSeg (cfg : EnvelopeConfig) (startLevel : ℝ) (n : ℕ) :
    List ℝ :=
  if cfg.release_curve ≠ 1 then
    (linspace 0 1 n).map (fun t => startLevel * (1 - t ^ cfg.release_curve))
  else (linspace 0 1 n).map (fun t => startLevel * Real.exp (-3 * t))

/-- `sustain_samples = max(0, num_samples - attack - decay - release)`
(line 30), with line 33 re-forcing it to `0` in the clamped branch. -/
def adsrS (num_samples : ℕ) (a d r0 : ℤ) : ℤ :=
  max 0 ((num_samples : ℤ) - a - d - r0)

/-- Effective release count: line 34 replaces it by
`num_samples - attack_samples - decay_samples` when the sustain count
clamps to zero. -/
def adsrR (num_samples : ℕ) (a d r0 : ℤ) : ℤ :=
  if adsrS num_samples a d r0 ≤ 0 then (num_samples : ℤ) - a - d else r0

/-- Written prefix after the attack write (guard of line 40). -/
noncomputable def adsrE1 (num_samples : ℕ) (a : ℤ) (cfg : EnvelopeConfig) :
    List ℝ :=
  if 0 < a ∧ a ≤ (num_samples : ℤ) then attackSeg cfg a.toNat else []

/-- Written prefix after the decay write (guard of line 49). -/
noncomputable def adsrE2 (num_samples : ℕ) (a d : ℤ) (cfg : EnvelopeConfig) :
    List ℝ :=
  adsrE1 num_samples a cfg ++
    (if 0 < d ∧ ((adsrE1 num_samples a cfg).length : ℤ) + d ≤ (num_samples : ℤ)
     then decaySeg cfg d.toNat else [])

/-- Written prefix after the sustain write (guard of line 59). -/
noncomputable def adsrE3 (num_samples : ℕ) (a d r0 : ℤ) (cfg : EnvelopeConfig) :
    List ℝ :=
  adsrE2 num_samples a d cfg ++
    (if 0 < adsrS num_samples a d r0 ∧
        ((adsrE2 num_samples a d cfg).length : ℤ) + adsrS num_samples a d r0 ≤
          (num_samples : ℤ)
     then sustainSeg cfg (adsrS num_samples a d r0).toNat else [])

/-- Written prefix after the release write (lines 66-75):
`actual_release = min(remaining, release_samples)` and
`start_level = envelope[pos-1] if pos > 0 else config.sustain`, i.e. the
last sample of the prefix, defaulting to the sustain level. -/
noncomputable def adsrE4 (num_samples : ℕ) (a d r0 : ℤ) (cfg : EnvelopeConfig) :
    List ℝ :=
  adsrE3 num_samples a d r0 cfg ++
    (if 0 < adsrR num_samples a d r0 ∧
        ((adsrE3 num_samples a d r0 cfg).length : ℤ) < (num_samples : ℤ)
     then
      releaseSeg cfg ((adsrE3 num_samples a d r0 cfg).getLastD cfg.sustain)
        (min ((num_samples : ℤ) - ((adsrE3 num_samples a d r0 cfg).length : ℤ))
          (adsrR num_samples a d r0)).toNat
     else [])

/-- `EnvelopeGenerator.adsr` on explicit sample counts: the written prefix
followed by the zeros of the original `np.zeros(num_samples)` allocation. -/
noncomputable def adsrCounts (num_samples : ℕ) (a d r0 : ℤ)
    (cfg : EnvelopeConfig) : List ℝ :=
  adsrE4 num_samples a d r0 cfg ++
    List.replicate (num_samples - (adsrE4 num_samples a d r0 cfg).length) 0

/-- `EnvelopeGenerator.adsr` (lines 13-77): sample counts are truncated
from the configured segment durations. -/
noncomputable def adsr (num_samples : ℕ) (sample_rate : ℕ)
    (cfg : EnvelopeConfig) : List ℝ :=
  adsrCounts num_samples (pyTrunc (cfg.attack * sample_rate))
    (pyTrunc (cfg.decay * sample_rate)) (pyTrunc (cfg.release * sample_rate)) cfg

/-! ## `AudioProcessor.mix` and `ChordMixer` -/

/-- `ChordOptimizationConfig` (`scripts/audio/core/config.py` lines 63-71). -/
structure ChordOptimizationConfig where
  enabled : Bool
  use_random_phase : Bool
  attack_humanization_ms : ℝ
  harmonic_reduction : ℝ
  dynamic_compression : Bool
  frequency_separation : Bool

/-- Default values of `ChordOptimizationConfig`. -/
noncomputable def chordOptimizationDefault : ChordOptimizationConfig :=
  ⟨true, true, 4.0, 0.7, true, true⟩

/-- `max(len(a) for a in audios)` (0 for the empty list, on which Python's
`max` would raise; the callers return before this point on empty input). -/
def maxLen (audios : List (List ℝ)) : ℕ :=
  (audios.map List.length).foldr max 0

/-- One iteration of the alignment loop in `AudioProcessor.mix`
(lines 190-195): zero-pad to `n` samples (or truncate, which never occurs
since `n` is the maximum length) and scale by the volume. -/
noncomputable def alignAudio (n : ℕ) (audio : List ℝ) (vol : ℝ) : List ℝ :=
  if audio.length < n then
    (audio ++ List.replicate (n - audio.length) 0).map (fun x => x * vol)
  else (audio.take n).map (fun x => x * vol)

/-- The pre-clip stage of `AudioProcessor.mix` (lines 183-205): materialize
`volumes = [1.0] * len(audios)` when none are given, align all buffers to
the longest, sum them sample-wise (`np.sum(aligned, axis=0)`), and — when
smart mixing is enabled — divide by `sqrt(num_notes)`. -/
noncomputable def audioProcessorMixPreClip (audios : List (List ℝ))
    (volumes : Option (List ℝ)) (smart : Bool) : List ℝ :=
  let vols := volumes.getD (List.replicate audios.length 1)
  let aligned := (audios.zip vols).map (fun p => alignAudio (maxLen audios) p.1 p.2)
  let mixed := aligned.foldr (List.zipWith (· + ·)) (List.replicate (maxLen audios) 0)
  if smart then mixed.map (fun x => x / Real.sqrt (aligned.length : ℝ))
  else mixed

/-- `AudioProcessor.mix` (lines 157-210): empty input gives an empty
buffer, a single input is passed through; otherwise the aligned sum,
normalized by `sqrt(N)` and soft-clipped at `0.9` when `use_smart_mixing`
is set. -/
noncomputable def audioProcessorMix (audios : List (List ℝ))
    (volumes : Option (List ℝ)) (smart : Bool) : List ℝ :=
  if audios = [] then []
  else if audios.length = 1 then audios.headI
  else if smart then soft_clip (audioProcessorMixPreClip audios volumes smart) 0.9
  else audioProcessorMixPreClip audios volumes smart

/-- `ChordMixer.mix` (`scripts/audio/generators/chord_mixer.py`
lines 26-53): empty list passes through as an empty buffer, a single buffer
unchanged; otherwise `AudioProcessor.mix` with
`use_smart_mixing = config.dynamic_compression`, followed by an extra
soft clip at `0.9`.  The `midi_notes` argument is unused by the body. -/
noncomputable def chordMixerMix (config : ChordOptimizationConfig)
    (audios : List (List ℝ)) (_midi_notes : List ℤ) : List ℝ :=
  if audios = [] then []
  else if audios.length = 1 then audios.headI
  else soft_clip (audioProcessorMix audios none config.dynamic_compression) 0.9

/-- Written from the claim (spec §4.5): the element-wise sum of the inputs
zero-padded to the longest buffer. -/
noncomputable def paddedSum (audios : List (List ℝ)) : List ℝ :=
  (audios.map (fun a => a ++ List.replicate (maxLen audios - a.length) 0)).foldr
    (List.zipWith (· + ·)) (List.replicate (maxLen audios) 0)

/-! ## Phase cache (`scripts/audio/generators/piano.py`) -/

open Classical in
/-- Lookup in the `_phase_cache` dict, keyed by `(frequency, harmonic)`. -/
noncomputable def findPhase : List ((ℝ × ℕ) × ℝ) → (ℝ × ℕ) → Option ℝ
  | [], _ => none
  | (k, v) :: rest, key => if k = key then some v else findPhase rest key

/-- `EnhancedPianoGenerator._get_random_phase` (lines 249-258): return the
cached phase for `(frequency, harmonic)` if present; otherwise draw
`np.random.uniform(0, 2π)` — modelled as consuming the next value of an
explicit random stream `rng` at index `ridx` — store it, and return it.
The result is `(phase, updated cache, updated stream index)`. -/
noncomputable def getRandomPhase (cache : List ((ℝ × ℕ) × ℝ)) (rng : ℕ → ℝ)
    (ridx : ℕ) (freq : ℝ) (harmonic : ℕ) : ℝ × List ((ℝ × ℕ) × ℝ) × ℕ :=
  match findPhase cache (freq, harmonic) with
  | some p => (p, cache, ridx)
  | none => (rng ridx, ((freq, harmonic), rng ridx) :: cache, ridx + 1)

/-- `EnhancedPianoGenerator.clear_phase_cache` (lines 372-374). -/
def clear_phase_cache (_cache : List ((ℝ × ℕ) × ℝ)) : List ((ℝ × ℕ) × ℝ) := []

/-! ## `AudioQualityAnalyzer.analyze_spectrum`
(`scripts/generate_audio_v2.py` lines 639-666) -/

/-- Bin `k` of `np.fft.rfft(audio)`:
`Σ_j audio[j] · exp(-2πi·j·k/n)` with `n = len(audio)`. -/
noncomputable def rfftBin (audio : List ℝ) (k : ℕ) : ℂ :=
  ∑ j ∈ Finset.range audio.length,
    (audio.getD j 0 : ℂ) *
      Complex.exp (-2 * (Real.pi : ℂ) * Complex.I * (j : ℂ) * (k : ℂ) /
        (audio.length : ℂ))

/-- `np.abs(np.fft.rfft(audio))`: magnitudes of the `n/2 + 1` real-FFT
bins. -/
noncomputable def rfftMagnitude (audio : List ℝ) : List ℝ :=
  (List.range (audio.length / 2 + 1)).map (fun k => Complex.abs (rfftBin audio k))

/-- `magnitude[0] = 0` (line 648: ignore the DC component). -/
def zeroDC : List ℝ → List ℝ
  | [] => []
  | _ :: rest => (0 : ℝ) :: rest

open Classical in
/-- Scanning loop of `np.argmax`: strict improvement keeps the first index
attaining the maximum. -/
noncomputable def argmaxAux : List ℝ → ℕ → ℕ → ℝ → ℕ
  | [], _, best, _ => best
  | x :: rest, i, best, m =>
    if m < x then argmaxAux rest (i + 1) i x else argmaxAux rest (i + 1) best m

/-- `np.argmax`: index of the first maximal entry (0 on the empty list, on
which numpy would raise). -/
noncomputable def argmaxIdx : List ℝ → ℕ
  | [] => 0
  | x :: rest => argmaxAux rest 1 0 x

/-- The dictionary returned by `analyze_spectrum`. -/
structure SpectrumReport where
  detected_freq : ℝ
  expected_freq : ℝ
  error_cents : ℝ
  is_accurate : Bool

open Classical in
/-- `AudioQualityAnalyzer.analyze_spectrum` (lines 639-666): magnitude
spectrum with the DC bin zeroed, peak bin frequency
`freqs[k] = k·sr/n` (`np.fft.rfftfreq(n, 1/sr)`), cent error
`1200·log2(detected/expected)` guarded by `detected > 0` (else `999`), and
the accuracy flag `|error| < PITCH_ERROR_THRESHOLD_CENTS`. -/
noncomputable def analyze_spectrum (audio : List ℝ) (sr : ℕ) (midi : ℤ) :
    SpectrumReport :=
  let magnitude := zeroDC (rfftMagnitude audio)
  let peak_idx := argmaxIdx magnitude
  let detected := (peak_idx : ℝ) * (sr : ℝ) / (audio.length : ℝ)
  let expected := midi_to_frequency midi
  let error := if 0 < detected then 1200 * Real.logb 2 (detected / expected)
    else 999
  ⟨detected, expected, error,
    if |error| < PITCH_ERROR_THRESHOLD_CENTS then true else false⟩

/-! ## The claims under test, as stated -/

/-- The claim of C1 as stated: for every mixer configuration and every list
of at least two buffers, the pre-clip samples of `ChordMixer.mix` (the
value fed into soft clipping) equal the element-wise sum of the zero-padded
inputs divided by `sqrt(N)`. -/
def c1_claim : Prop :=
  ∀ (config : ChordOptimizationConfig) (audios : List (List ℝ)),
    2 ≤ audios.length →
    audioProcessorMixPreClip audios none config.dynamic_compression =
      (paddedSum audios).map (fun x => x / Real.sqrt (audios.length : ℝ))

/-- The claim of C2 as stated: for every pair `(totalSamples, spec)` with
`totalSamples ≥ 1` (and any sample rate), `adsr` returns exactly
`totalSamples` entries and its final entry is `≤` the sustain level. -/
def c2_claim : Prop :=
  ∀ (num sr : ℕ) (cfg : EnvelopeConfig), 1 ≤ num →
    (adsr num sr cfg).length = num ∧ (adsr num sr cfg).getLastD 0 ≤ cfg.sustain

/-- The claim of C3 as stated: whenever the requested sample counts
`a + d + r0` exceed `totalSamples` (so the clamped sustain count is zero),
the envelope is an attack segment of exactly `a` samples, a decay segment
of exactly `d` samples, and a release remainder that exactly tiles
`totalSamples`. -/
def c3_claim : Prop :=
  ∀ (num : ℕ) (a d r0 : ℤ) (cfg : EnvelopeConfig),
    0 ≤ a → 0 ≤ d → 0 ≤ r0 → (num : ℤ) < a + d + r0 →
    ∃ rel : List ℝ,
      adsrCounts num a d r0 cfg =
        attackSeg cfg a.toNat ++ (decaySeg cfg d.toNat ++ rel) ∧
      a.toNat + d.toNat + rel.length = num

/-- The claim of C4 as stated: every render request with `duration ≤ 0`
fails at the start of the call (in `_create_time_array`, the first buffer
computation of `EnhancedPianoGenerator.generate`). -/
def c4_claim : Prop :=
  ∀ duration : ℝ, duration ≤ 0 → (createTimeArray 44100 duration).isOk = false

/-- The claim of C6 as stated: any out-of-range MIDI number makes the
frequency conversion fail instead of returning a value. -/
def c6_claim : Prop :=
  ∀ m : ℤ, (m < 0 ∨ 127 < m) → (midiToFrequencyCall m).isOk = false

end MusicLab

namespace MusicLab

/-! ## Theorems for C5 / C6 (PitchMath) -/

/-- C5: for every MIDI number in the valid range `[0, 127]`, the pitch-math
frequency function returns exactly `440 * 2^((m-69)/12)`; in particular
`frequency(69) = 440`. -/
theorem c5_frequency_law :
    (∀ m : ℤ, 0 ≤ m → m ≤ 127 →
      midi_to_frequency m = 440 * (2 : ℝ) ^ (((m : ℝ) - 69) / 12)) ∧
    midi_to_frequency 69 = 440 := by
  constructor
  · intro m _ _
    simp [midi_to_frequency, A4_FREQUENCY, A4_MIDI]
  · have : (((69 : ℤ) : ℝ) - (69 : ℝ)) / 12 = 0 := by norm_num
    simp [midi_to_frequency, A4_FREQUENCY, A4_MIDI, this]

/-- Witness for C5 at `m = 60` and the exact value at `m = 69`. -/
theorem c5_frequency_law_witness :
    midi_to_frequency 60 = 440 * (2 : ℝ) ^ ((((60 : ℤ) : ℝ) - 69) / 12) ∧
    midi_to_frequency 69 = 440 :=
  ⟨c5_frequency_law.1 60 (by norm_num) (by norm_num), c5_frequency_law.2⟩

/-- C6 counterexample: `midi_to_frequency` performs no range check; at
`midi = 128` the call succeeds and returns a frequency. -/
theorem c6_counterexample : ¬ c6_claim := by
  intro h
  have := h 128 (Or.inr (by norm_num))
  simp [midiToFrequencyCall, Except.isOk, Except.toBool] at this

/-- C6 amended: `midi_to_frequency` performs no validation at all — for
every integer `m`, in range or not, the call returns the frequency
`440 * 2^((m-69)/12)`, which is strictly positive; no error is ever
surfaced. -/
theorem c6_amended_no_validation (m : ℤ) :
    midiToFrequencyCall m = .ok (440 * (2 : ℝ) ^ (((m : ℝ) - 69) / 12)) ∧
    0 < midi_to_frequency m := by
  constructor
  · simp [midiToFrequencyCall, midi_to_frequency, A4_FREQUENCY, A4_MIDI]
  · have h2 : (0 : ℝ) < (2 : ℝ) ^ (((m : ℝ) - 69) / 12) :=
      Real.rpow_pos_of_pos (by norm_num) _
    have : (0 : ℝ) < 440 := by norm_num
    simpa [midi_to_frequency, A4_FREQUENCY, A4_MIDI] using mul_pos this h2

/-! ## Theorems for C7 (soft clip) -/

/-- `|tanh x| ≤ 1` (in fact strict), from `cosh² = sinh² + 1`. -/
theorem abs_tanh_le_one (x : ℝ) : |Real.tanh x| ≤ 1 := by
  rw [Real.tanh_eq_sinh_div_cosh, abs_div,
    abs_of_pos (Real.cosh_pos x), div_le_one (Real.cosh_pos x)]
  nlinarith [Real.cosh_sq x, sq_abs (Real.sinh x), Real.cosh_pos x,
    abs_nonneg (Real.sinh x)]

/-- `|Real.sign x| ≤ 1`. -/
theorem abs_sign_le_one (x : ℝ) : |Real.sign x| ≤ 1 := by
  rcases lt_trichotomy x 0 with h | h | h
  · rw [Real.sign_of_neg h]; norm_num
  · rw [h, Real.sign_zero]; norm_num
  · rw [Real.sign_of_pos h]; norm_num

/-- C7: for any input buffer and threshold `T > 0`, `soft_clip` replaces
samples with `|x| > T` by `T * sign(x) * tanh(|x|/T)`, leaves samples with
`|x| ≤ T` unchanged, and every output sample satisfies `|y| ≤ T`. -/
theorem c7_soft_clip_bound (audio : List ℝ) (T : ℝ) (hT : 0 < T) :
    (∀ y ∈ soft_clip audio T, |y| ≤ T) ∧
    soft_clip audio T = audio.map (fun x =>
      if T < |x| then T * Real.sign x * Real.tanh (|x| / T) else x) := by
  refine ⟨?_, rfl⟩
  intro y hy
  rw [soft_clip, List.mem_map] at hy
  obtain ⟨x, -, hx⟩ := hy
  subst hx
  by_cases h : T < |x|
  · rw [if_pos h, abs_mul, abs_mul, abs_of_pos hT]
    calc T * |Real.sign x| * |Real.tanh (|x| / T)|
        ≤ T * 1 * 1 := by
          apply mul_le_mul _ (abs_tanh_le_one _) (abs_nonneg _)
          · nlinarith [abs_sign_le_one x, abs_nonneg (Real.sign x)]
          · nlinarith [abs_sign_le_one x, abs_nonneg (Real.sign x)]
      _ = T := by ring
  · rw [if_neg h]
    exact le_of_not_lt h

/-- Witness for C7: the first sample of `soft_clip [2, 0.5] 1` is bounded
by the threshold `1`. -/
theorem c7_soft_clip_bound_witness :
    |(soft_clip [(2 : ℝ), 0.5] 1).headD 0| ≤ 1 := by
  refine (c7_soft_clip_bound [(2 : ℝ), 0.5] 1 (by norm_num)).1 _ ?_
  simp [soft_clip]

/-! ## Theorems for C10 (int16 output safety) -/

/-- `pyTrunc` maps `[-32767, 32767]` into the same integer interval. -/
theorem pyTrunc_bound {v : ℝ} (h1 : -32767 ≤ v) (h2 : v ≤ 32767) :
    -32767 ≤ pyTrunc v ∧ pyTrunc v ≤ 32767 := by
  unfold pyTrunc
  split
  · constructor
    · have : (0 : ℤ) ≤ ⌊v⌋ := Int.floor_nonneg.2 (by assumption)
      omega
    · have : ⌊v⌋ ≤ ⌊(32767 : ℝ)⌋ := Int.floor_le_floor h2
      simpa using this
  · rename_i hv
    push_neg at hv
    constructor
    · have : ⌊-v⌋ ≤ ⌊(32767 : ℝ)⌋ := Int.floor_le_floor (by linarith)
      simp at this
      omega
    · have : (0 : ℤ) ≤ ⌊-v⌋ := Int.floor_nonneg.2 (by linarith)
      omega

/-- C10: for every input buffer, MIDI number and velocity, every sample
produced by `to_int16` after `normalize` with the combined target
`0.9 * volume_compensation * velocity` lies in `[-32767, 32767]`: the
clip to `[-1, 1]` before fixed-point conversion prevents int16 overflow
even when the target exceeds `1`. -/
theorem c10_int16_range (audio : List ℝ) (midi : ℤ) (velocity : ℝ) :
    ∀ y ∈ to_int16 (normalize audio (0.9 * volume_compensation midi * velocity) 1),
      -32767 ≤ y ∧ y ≤ 32767 := by
  intro y hy
  rw [to_int16, List.mem_map] at hy
  obtain ⟨x, -, hx⟩ := hy
  subst hx
  have hlo : -1 ≤ clip x (-1) 1 := le_max_left _ _
  have hhi : clip x (-1) 1 ≤ 1 := by
    apply max_le _ (min_le_right _ _)
    norm_num
  exact pyTrunc_bound (by nlinarith) (by nlinarith)

/-- Witness for C10: a buffer whose normalization target
`0.9 * 1.5 * 1.0 = 1.35` exceeds `1`; the first converted sample is
`32767`, inside the int16 range. -/
theorem c10_int16_range_witness :
    (32767 : ℤ) ∈ to_int16 (normalize [(2 : ℝ)] (0.9 * volume_compensation 30 * 1) 1) ∧
    (-32767 ≤ (32767 : ℤ) ∧ (32767 : ℤ) ≤ 32767) := by
  have hmem : (32767 : ℤ) ∈
      to_int16 (normalize [(2 : ℝ)] (0.9 * volume_compensation 30 * 1) 1) := by
    have hcomp : volume_compensation 30 = 1.5 := by norm_num [volume_compensation]
    have hmax : maxAbs [(2 : ℝ)] = 2 := by norm_num [maxAbs]
    have hnorm : normalize [(2 : ℝ)] (0.9 * volume_compensation 30 * 1) 1 = [1.35] := by
      rw [normalize, if_pos (by rw [hmax]; norm_num)]
      rw [hcomp, hmax]
      norm_num
    rw [hnorm, to_int16]
    have hclip : clip 1.35 (-1) 1 = 1 := by
      rw [clip]
      norm_num
    have : pyTrunc (clip 1.35 (-1) 1 * 32767) = 32767 := by
      rw [hclip, pyTrunc, if_pos (by norm_num)]
      norm_num
    simp [this]
  exact ⟨hmem, c10_int16_range [(2 : ℝ)] 30 1 32767 hmem⟩

/-! ## Theorems for C4 (duration validation) -/

/-- C4 counterexample: at `duration = 0` the sample count truncates to `0`,
`np.linspace` succeeds with an empty array, and no error of any kind (let
alone `InvalidDuration`) is raised at the start of the call. -/
theorem c4_counterexample : ¬ c4_claim := by
  intro h
  have := h 0 le_rfl
  rw [createTimeArray] at this
  have h0 : pyTrunc ((44100 : ℕ) * (0 : ℝ)) = 0 := by
    rw [pyTrunc, if_pos (by norm_num)]
    norm_num
  rw [h0] at this
  simp [Except.isOk, Except.toBool] at this

/-- C4 amended: `generate` performs no duration validation and the code has
no `InvalidDuration` error.  For any non-positive duration whose scaled
sample count `sample_rate * duration` truncates to `0` (in particular
`duration = 0`), `_create_time_array` silently returns an empty buffer and
the render proceeds; an error (numpy's `ValueError`, not `InvalidDuration`)
occurs only when the truncated count is negative. -/
theorem c4_amended_no_validation (sr : ℕ) (d : ℝ) (hd : d ≤ 0)
    (hsmall : -1 < (sr : ℝ) * d) :
    createTimeArray sr d = .ok [] := by
  have hle : (sr : ℝ) * d ≤ 0 :=
    mul_nonpos_iff.2 (Or.inl ⟨Nat.cast_nonneg sr, hd⟩)
  have htr : pyTrunc ((sr : ℝ) * d) = 0 := by
    rw [pyTrunc]
    split
    · have : (sr : ℝ) * d = 0 := le_antisymm hle (by assumption)
      rw [this]
      norm_num
    · have h1 : (0 : ℝ) ≤ -((sr : ℝ) * d) := by linarith
      have h2 : -((sr : ℝ) * d) < 1 := by linarith
      have : ⌊-((sr : ℝ) * d)⌋ = 0 := by
        rw [Int.floor_eq_zero_iff]
        exact ⟨h1, h2⟩
      rw [this]
      norm_num
  rw [createTimeArray, htr]
  norm_num [linspace]

/-- Witness for C4 amended: `duration = 0` at the standard sample rate
yields an empty buffer with no error. -/
theorem c4_amended_no_validation_witness :
    createTimeArray 44100 0 = .ok [] :=
  c4_amended_no_validation 44100 0 le_rfl (by norm_num)

/-! ## Theorems for C9 (phase cache determinism) -/

/-- C9: on a single generator instance, two `_get_random_phase` lookups for
the same `(frequency, harmonic)` key with no intervening clear return the
identical phase and leave the cache unchanged after the first call; after
an explicit `clear_phase_cache`, a subsequent lookup may return a different
phase (witnessed by random streams drawing different values). -/
theorem c9_phase_cache_determinism :
    (∀ (cache : List ((ℝ × ℕ) × ℝ)) (rng : ℕ → ℝ) (ridx : ℕ) (freq : ℝ)
      (harmonic : ℕ),
      (getRandomPhase (getRandomPhase cache rng ridx freq harmonic).2.1 rng
          (getRandomPhase cache rng ridx freq harmonic).2.2 freq harmonic).1 =
        (getRandomPhase cache rng ridx freq harmonic).1 ∧
      (getRandomPhase (getRandomPhase cache rng ridx freq harmonic).2.1 rng
          (getRandomPhase cache rng ridx freq harmonic).2.2 freq harmonic).2.1 =
        (getRandomPhase cache rng ridx freq harmonic).2.1) ∧
    (∃ (rng₁ rng₂ : ℕ → ℝ) (freq : ℝ) (harmonic : ℕ),
      (getRandomPhase
          (clear_phase_cache (getRandomPhase [] rng₁ 0 freq harmonic).2.1)
          rng₂ 0 freq harmonic).1 ≠
        (getRandomPhase [] rng₁ 0 freq harmonic).1) := by
  constructor
  · intro cache rng ridx freq harmonic
    rcases h : findPhase cache (freq, harmonic) with _ | p
    · simp [getRandomPhase, findPhase, h]
    · simp [getRandomPhase, h]
  · refine ⟨fun _ => 0, fun _ => 1, 440, 1, ?_⟩
    simp [getRandomPhase, clear_phase_cache, findPhase]

/-! ## Theorems for C1 (loudness-safe chord mixing) -/

/-- Zipping with the materialized default volume list `[1.0] * N` aligns
each buffer with volume `1`. -/
theorem zip_replicate_align (audios : List (List ℝ)) (n : ℕ) :
    ((audios.zip (List.replicate audios.length (1 : ℝ))).map
      (fun p => alignAudio n p.1 p.2)) =
    audios.map (fun a => alignAudio n a 1) := by
  induction audios with
  | nil => rfl
  | cons a rest ih =>
    rw [List.length_cons, List.replicate_succ, List.zip_cons_cons,
      List.map_cons, List.map_cons, ih]

/-- Aligning with volume `1` is exactly zero-padding to `n` samples. -/
theorem alignAudio_one (a : List ℝ) (n : ℕ) (h : a.length ≤ n) :
    alignAudio n a 1 = a ++ List.replicate (n - a.length) 0 := by
  rw [alignAudio]
  by_cases hlt : a.length < n
  · rw [if_pos hlt]
    simp
  · rw [if_neg hlt]
    have heq : a.length = n := le_antisymm h (le_of_not_lt hlt)
    rw [← heq, List.take_length, Nat.sub_self, List.replicate_zero,
      List.append_nil]
    simp

/-- Every buffer in the list is at most `maxLen` long. -/
theorem length_le_maxLen (audios : List (List ℝ)) (a : List ℝ)
    (h : a ∈ audios) : a.length ≤ maxLen audios := by
  induction audios with
  | nil => cases h
  | cons b rest ih =>
    rw [maxLen, List.map_cons, List.foldr_cons]
    rcases List.mem_cons.1 h with h | h
    · subst h
      exact le_max_left _ _
    · exact le_trans (ih h) (le_max_right _ _)

/-- The pre-clip stage with smart mixing on is the padded sample-wise sum
divided by `sqrt(N)`. -/
theorem preClip_smart_eq (audios : List (List ℝ)) :
    audioProcessorMixPreClip audios none true =
      (paddedSum audios).map (fun x => x / Real.sqrt (audios.length : ℝ)) := by
  rw [audioProcessorMixPreClip, paddedSum]
  simp only [Option.getD_none, if_pos]
  rw [zip_replicate_align]
  have haligned : audios.map (fun a => alignAudio (maxLen audios) a 1) =
      audios.map (fun a => a ++ List.replicate (maxLen audios - a.length) 0) :=
    List.map_congr_left (fun a ha =>
      alignAudio_one a (maxLen audios) (length_le_maxLen audios a ha))
  rw [haligned]
  simp

/-- C1 counterexample: with `dynamic_compression = false`, `ChordMixer.mix`
calls `AudioProcessor.mix` with `use_smart_mixing=False`, so the sum of
`[[1], [1]]` is `[2]`, never divided by `sqrt 2`. -/
theorem c1_counterexample : ¬ c1_claim := by
  intro h
  have hinst := h ⟨true, true, 4.0, 0.7, false, true⟩ [[1], [1]] (by norm_num)
  have hpre : audioProcessorMixPreClip [[(1 : ℝ)], [1]] none false = [2] := by
    rw [audioProcessorMixPreClip]
    simp only [Option.getD_none, List.length_cons, List.length_nil,
      List.replicate_succ, List.replicate_zero, List.zip_cons_cons,
      List.zip_nil_right, List.map_cons, List.map_nil]
    norm_num [maxLen, alignAudio]
  have hsum : paddedSum [[(1 : ℝ)], [1]] = [2] := by
    rw [paddedSum]
    norm_num [maxLen]
  rw [hpre, hsum] at hinst
  have hhead : (2 : ℝ) = 2 / Real.sqrt 2 := by
    have := congrArg (fun l => l.headD 0) hinst
    simpa using this
  have hpos : (0 : ℝ) < Real.sqrt 2 := Real.sqrt_pos.2 (by norm_num)
  have hs : Real.sqrt 2 * Real.sqrt 2 = 2 := Real.mul_self_sqrt (by norm_num)
  rw [eq_div_iff (ne_of_gt hpos)] at hhead
  nlinarith [hhead, hs, hpos]

/-- C1 amended: the claimed `sqrt(N)` mixing law holds exactly when the
chord-optimization config has `dynamic_compression` enabled (its default):
the pre-clip samples are the zero-padded sample-wise sum divided by
`sqrt(N)`, and `ChordMixer.mix` is that value soft-clipped at `0.9` by
`AudioProcessor.mix` and once more by `ChordMixer`. -/
theorem c1_amended_sqrtN_mixing (config : ChordOptimizationConfig)
    (hdc : config.dynamic_compression = true)
    (audios : List (List ℝ)) (notes : List ℤ) (h2 : 2 ≤ audios.length) :
    audioProcessorMixPreClip audios none config.dynamic_compression =
      (paddedSum audios).map (fun x => x / Real.sqrt (audios.length : ℝ)) ∧
    chordMixerMix config audios notes =
      soft_clip (soft_clip ((paddedSum audios).map
        (fun x => x / Real.sqrt (audios.length : ℝ))) 0.9) 0.9 := by
  have hne : audios ≠ [] := by
    intro h
    rw [h] at h2
    norm_num at h2
  have hlen : audios.length ≠ 1 := by omega
  have hpre := preClip_smart_eq audios
  rw [hdc]
  refine ⟨hpre, ?_⟩
  rw [chordMixerMix, if_neg hne, if_neg hlen, audioProcessorMix, if_neg hne,
    if_neg hlen, hdc, if_pos rfl, hpre]

/-- Witness for C1 amended at `audios = [[1], [1]]` with the default
configuration. -/
theorem c1_amended_sqrtN_mixing_witness :
    audioProcessorMixPreClip [[(1 : ℝ)], [1]] none
        chordOptimizationDefault.dynamic_compression =
      (paddedSum [[(1 : ℝ)], [1]]).map
        (fun x => x / Real.sqrt (([[(1 : ℝ)], [1]] : List (List ℝ)).length : ℝ)) ∧
    chordMixerMix chordOptimizationDefault [[(1 : ℝ)], [1]] [60, 64] =
      soft_clip (soft_clip ((paddedSum [[(1 : ℝ)], [1]]).map
        (fun x => x / Real.sqrt (([[(1 : ℝ)], [1]] : List (List ℝ)).length : ℝ))) 0.9) 0.9 :=
  c1_amended_sqrtN_mixing chordOptimizationDefault rfl [[(1 : ℝ)], [1]] [60, 64]
    (by norm_num)

/-! ## Envelope helper lemmas (for C2 and C3) -/

/-- `linspace` always has exactly `n` entries. -/
theorem linspace_length (a b : ℝ) (n : ℕ) : (linspace a b n).length = n := by
  rw [linspace]
  split
  · simp_all
  · simp

/-- Every entry of `linspace a b n` is `a + (b - a) * θ` for some
`θ ∈ [0, 1]`. -/
theorem linspace_mem (a b : ℝ) (n : ℕ) :
    ∀ t ∈ linspace a b n, ∃ θ : ℝ, 0 ≤ θ ∧ θ ≤ 1 ∧ t = a + (b - a) * θ := by
  intro t ht
  rw [linspace] at ht
  split at ht
  · rw [List.mem_singleton] at ht
    exact ⟨0, le_rfl, zero_le_one, by rw [ht]; ring⟩
  · rw [List.mem_map] at ht
    obtain ⟨i, hi, rfl⟩ := ht
    rw [List.mem_range] at hi
    rename_i hn1
    have hn2 : 2 ≤ n := by omega
    have hpos : (0 : ℝ) < (n : ℝ) - 1 := by
      have : (2 : ℝ) ≤ (n : ℝ) := by exact_mod_cast hn2
      linarith
    refine ⟨(i : ℝ) / ((n : ℝ) - 1), ?_, ?_, by ring⟩
    · exact div_nonneg (Nat.cast_nonneg i) hpos.le
    · rw [div_le_one hpos]
      have : (i : ℝ) + 1 ≤ (n : ℝ) := by exact_mod_cast hi
      linarith

/-- Attack segment length. -/
theorem attackSeg_length (cfg : EnvelopeConfig) (n : ℕ) :
    (attackSeg cfg n).length = n := by
  rw [attackSeg]
  split <;> simp [linspace_length]

/-- Decay segment length. -/
theorem decaySeg_length (cfg : EnvelopeConfig) (n : ℕ) :
    (decaySeg cfg n).length = n := by
  rw [decaySeg]
  split <;> simp [linspace_length]

/-- Sustain segment length. -/
theorem sustainSeg_length (cfg : EnvelopeConfig) (n : ℕ) :
    (sustainSeg cfg n).length = n := by
  rw [sustainSeg]
  simp [linspace_length]

/-- Release segment length. -/
theorem releaseSeg_length (cfg : EnvelopeConfig) (s : ℝ) (n : ℕ) :
    (releaseSeg cfg s n).length = n := by
  rw [releaseSeg]
  split <;> simp [linspace_length]

/-- Attack samples lie in `[0, 1]` for a non-negative curve exponent. -/
theorem attackSeg_mem (cfg : EnvelopeConfig) (hac : 0 ≤ cfg.attack_curve)
    (n : ℕ) : ∀ x ∈ attackSeg cfg n, 0 ≤ x ∧ x ≤ 1 := by
  intro x hx
  rw [attackSeg] at hx
  split at hx
  · rw [List.mem_map] at hx
    obtain ⟨t, ht, rfl⟩ := hx
    obtain ⟨θ, h0, h1, rfl⟩ := linspace_mem 0 1 n t ht
    rw [show (0 : ℝ) + (1 - 0) * θ = θ by ring]
    exact ⟨Real.rpow_nonneg h0 _, Real.rpow_le_one h0 h1 hac⟩
  · obtain ⟨θ, h0, h1, rfl⟩ := linspace_mem 0 1 n x hx
    constructor <;> nlinarith

/-- Decay samples lie in `[sustain, 1] ⊆ [0, 1]` for a valid sustain level
and a non-negative curve exponent. -/
theorem decaySeg_mem (cfg : EnvelopeConfig) (hs0 : 0 ≤ cfg.sustain)
    (hs1 : cfg.sustain ≤ 1) (hdc : 0 ≤ cfg.decay_curve) (n : ℕ) :
    ∀ x ∈ decaySeg cfg n, 0 ≤ x ∧ x ≤ 1 := by
  intro x hx
  rw [decaySeg] at hx
  split at hx
  · rw [List.mem_map] at hx
    obtain ⟨t, ht, rfl⟩ := hx
    obtain ⟨θ, h0, h1, rfl⟩ := linspace_mem 0 1 n t ht
    rw [show (0 : ℝ) + (1 - 0) * θ = θ by ring]
    have hp0 : 0 ≤ θ ^ cfg.decay_curve := Real.rpow_nonneg h0 _
    have hp1 : θ ^ cfg.decay_curve ≤ 1 := Real.rpow_le_one h0 h1 hdc
    constructor <;> nlinarith
  · obtain ⟨θ, h0, h1, rfl⟩ := linspace_mem 1 cfg.sustain n x hx
    constructor <;> nlinarith

/-- Sustain samples lie in `[0, sustain] ⊆ [0, 1]`. -/
theorem sustainSeg_mem (cfg : EnvelopeConfig) (hs0 : 0 ≤ cfg.sustain)
    (hs1 : cfg.sustain ≤ 1) (n : ℕ) :
    ∀ x ∈ sustainSeg cfg n, 0 ≤ x ∧ x ≤ 1 := by
  intro x hx
  rw [sustainSeg, List.mem_map] at hx
  obtain ⟨t, ht, rfl⟩ := hx
  obtain ⟨θ, h0, h1, rfl⟩ := linspace_mem 0 1 n t ht
  rw [show (0 : ℝ) + (1 - 0) * θ = θ by ring]
  have he0 : 0 < Real.exp (-0.5 * θ) := Real.exp_pos _
  have he1 : Real.exp (-0.5 * θ) ≤ 1 := Real.exp_le_one_iff.2 (by nlinarith)
  constructor <;> nlinarith

/-- Release samples lie in `[0, start_level] ⊆ [0, 1]` when the start
level is itself in `[0, 1]` and the curve exponent is non-negative. -/
theorem releaseSeg_mem (cfg : EnvelopeConfig) (s : ℝ) (h0 : 0 ≤ s)
    (h1 : s ≤ 1) (hrc : 0 ≤ cfg.release_curve) (n : ℕ) :
    ∀ x ∈ releaseSeg cfg s n, 0 ≤ x ∧ x ≤ 1 := by
  intro x hx
  rw [releaseSeg] at hx
  split at hx
  · rw [List.mem_map] at hx
    obtain ⟨t, ht, rfl⟩ := hx
    obtain ⟨θ, ht0, ht1, rfl⟩ := linspace_mem 0 1 n t ht
    rw [show (0 : ℝ) + (1 - 0) * θ = θ by ring]
    have hp0 : 0 ≤ θ ^ cfg.release_curve := Real.rpow_nonneg ht0 _
    have hp1 : θ ^ cfg.release_curve ≤ 1 := Real.rpow_le_one ht0 ht1 hrc
    constructor <;> nlinarith
  · rw [List.mem_map] at hx
    obtain ⟨t, ht, rfl⟩ := hx
    obtain ⟨θ, ht0, ht1, rfl⟩ := linspace_mem 0 1 n t ht
    rw [show (0 : ℝ) + (1 - 0) * θ = θ by ring]
    have he0 : 0 < Real.exp (-3 * θ) := Real.exp_pos _
    have he1 : Real.exp (-3 * θ) ≤ 1 := Real.exp_le_one_iff.2 (by nlinarith)
    constructor <;> nlinarith

/-- `getLastD` stays within bounds satisfied by the default and by every
element. -/
theorem getLastD_bounds {lo hi : ℝ} :
    ∀ (l : List ℝ) (d : ℝ), lo ≤ d → d ≤ hi → (∀ x ∈ l, lo ≤ x ∧ x ≤ hi) →
      lo ≤ l.getLastD d ∧ l.getLastD d ≤ hi
  | [], _, hd0, hd1, _ => ⟨hd0, hd1⟩
  | b :: l', d, _, _, h => by
    rw [List.getLastD_cons]
    exact getLastD_bounds l' b (h b (.head _)).1 (h b (.head _)).2
      (fun x hx => h x (.tail _ hx))

/-- The attack prefix never exceeds the allocation. -/
theorem adsrE1_length (num : ℕ) (a : ℤ) (cfg : EnvelopeConfig) :
    (adsrE1 num a cfg).length ≤ num := by
  rw [adsrE1]
  split
  · rename_i h
    rw [attackSeg_length]
    omega
  · simp

/-- The attack+decay prefix never exceeds the allocation. -/
theorem adsrE2_length (num : ℕ) (a d : ℤ) (cfg : EnvelopeConfig) :
    (adsrE2 num a d cfg).length ≤ num := by
  rw [adsrE2, List.length_append]
  split
  · rename_i h
    rw [decaySeg_length]
    omega
  · have := adsrE1_length num a cfg
    simp
    omega

/-- The attack+decay+sustain prefix never exceeds the allocation. -/
theorem adsrE3_length (num : ℕ) (a d r0 : ℤ) (cfg : EnvelopeConfig) :
    (adsrE3 num a d r0 cfg).length ≤ num := by
  rw [adsrE3, List.length_append]
  split
  · rename_i h
    rw [sustainSeg_length]
    omega
  · have := adsrE2_length num a d cfg
    simp
    omega

/-- The whole written prefix never exceeds the allocation. -/
theorem adsrE4_length (num : ℕ) (a d r0 : ℤ) (cfg : EnvelopeConfig) :
    (adsrE4 num a d r0 cfg).length ≤ num := by
  rw [adsrE4, List.length_append]
  split
  · rename_i h
    rw [releaseSeg_length]
    omega
  · have := adsrE3_length num a d r0 cfg
    simp
    omega

/-- All attack-prefix samples lie in `[0, 1]`. -/
theorem adsrE1_mem (num : ℕ) (a : ℤ) (cfg : EnvelopeConfig)
    (hac : 0 ≤ cfg.attack_curve) :
    ∀ x ∈ adsrE1 num a cfg, 0 ≤ x ∧ x ≤ 1 := by
  intro x hx
  rw [adsrE1] at hx
  split at hx
  · exact attackSeg_mem cfg hac _ x hx
  · cases hx

/-- All attack+decay-prefix samples lie in `[0, 1]`. -/
theorem adsrE2_mem (num : ℕ) (a d : ℤ) (cfg : EnvelopeConfig)
    (hs0 : 0 ≤ cfg.sustain) (hs1 : cfg.sustain ≤ 1)
    (hac : 0 ≤ cfg.attack_curve) (hdc : 0 ≤ cfg.decay_curve) :
    ∀ x ∈ adsrE2 num a d cfg, 0 ≤ x ∧ x ≤ 1 := by
  intro x hx
  rw [adsrE2, List.mem_append] at hx
  rcases hx with hx | hx
  · exact adsrE1_mem num a cfg hac x hx
  · split at hx
    · exact decaySeg_mem cfg hs0 hs1 hdc _ x hx
    · cases hx

/-- All attack+decay+sustain-prefix samples lie in `[0, 1]`. -/
theorem adsrE3_mem (num : ℕ) (a d r0 : ℤ) (cfg : EnvelopeConfig)
    (hs0 : 0 ≤ cfg.sustain) (hs1 : cfg.sustain ≤ 1)
    (hac : 0 ≤ cfg.attack_curve) (hdc : 0 ≤ cfg.decay_curve) :
    ∀ x ∈ adsrE3 num a d r0 cfg, 0 ≤ x ∧ x ≤ 1 := by
  intro x hx
  rw [adsrE3, List.mem_append] at hx
  rcases hx with hx | hx
  · exact adsrE2_mem num a d cfg hs0 hs1 hac hdc x hx
  · split at hx
    · exact sustainSeg_mem cfg hs0 hs1 _ x hx
    · cases hx

/-- All written samples lie in `[0, 1]`. -/
theorem adsrE4_mem (num : ℕ) (a d r0 : ℤ) (cfg : EnvelopeConfig)
    (hs0 : 0 ≤ cfg.sustain) (hs1 : cfg.sustain ≤ 1)
    (hac : 0 ≤ cfg.attack_curve) (hdc : 0 ≤ cfg.decay_curve)
    (hrc : 0 ≤ cfg.release_curve) :
    ∀ x ∈ adsrE4 num a d r0 cfg, 0 ≤ x ∧ x ≤ 1 := by
  intro x hx
  rw [adsrE4, List.mem_append] at hx
  rcases hx with hx | hx
  · exact adsrE3_mem num a d r0 cfg hs0 hs1 hac hdc x hx
  · split at hx
    · have hstart := getLastD_bounds (adsrE3 num a d r0 cfg) cfg.sustain hs0 hs1
        (adsrE3_mem num a d r0 cfg hs0 hs1 hac hdc)
      exact releaseSeg_mem cfg _ hstart.1 hstart.2 hrc _ x hx
    · cases hx

/-- Core of C2: for every sample-count triple and a spec-conformant
envelope config, `adsrCounts` has exactly `num_samples` entries, all in
`[0, 1]`. -/
theorem adsrCounts_bounds (num : ℕ) (a d r0 : ℤ) (cfg : EnvelopeConfig)
    (hs0 : 0 ≤ cfg.sustain) (hs1 : cfg.sustain ≤ 1)
    (hac : 0 ≤ cfg.attack_curve) (hdc : 0 ≤ cfg.decay_curve)
    (hrc : 0 ≤ cfg.release_curve) :
    (adsrCounts num a d r0 cfg).length = num ∧
    ∀ x ∈ adsrCounts num a d r0 cfg, 0 ≤ x ∧ x ≤ 1 := by
  have hlen := adsrE4_length num a d r0 cfg
  constructor
  · rw [adsrCounts, List.length_append, List.length_replicate]
    omega
  · intro x hx
    rw [adsrCounts, List.mem_append] at hx
    rcases hx with hx | hx
    · exact adsrE4_mem num a d r0 cfg hs0 hs1 hac hdc hrc x hx
    · rw [List.eq_of_mem_replicate hx]
      exact ⟨le_rfl, zero_le_one⟩

/-! ## Theorems for C2 (envelope length and final value) -/

/-- C2 counterexample: with `totalSamples = 2`, sample rate `2` and an
envelope whose attack lasts `1.0 s` (decay and release `0`), the attack
ramp fills the whole buffer and the final sample is `1 > 0.7 = sustain`. -/
theorem c2_counterexample : ¬ c2_claim := by
  intro h
  have hinst := h 2 2 ⟨1.0, 0, 0.7, 0, 1.0, 1.0, 1.0⟩ (by norm_num)
  have ha : pyTrunc ((1.0 : ℝ) * (2 : ℕ)) = 2 := by
    rw [pyTrunc, if_pos (by norm_num),
      show ((1.0 : ℝ) * (2 : ℕ)) = ((2 : ℤ) : ℝ) by norm_num, Int.floor_intCast]
  have hd : pyTrunc ((0 : ℝ) * (2 : ℕ)) = 0 := by
    rw [pyTrunc, if_pos (by norm_num),
      show ((0 : ℝ) * (2 : ℕ)) = ((0 : ℤ) : ℝ) by norm_num, Int.floor_intCast]
  have henv : adsr 2 2 ⟨1.0, 0, 0.7, 0, 1.0, 1.0, 1.0⟩ =
      linspace 0 1 2 := by
    rw [adsr]
    simp only [ha, hd]
    rw [adsrCounts, adsrE4, adsrE3, adsrE2, adsrE1]
    rw [adsrR, adsrS]
    norm_num [attackSeg, linspace_length]
    rfl
  rw [henv] at hinst
  have hlast : (linspace 0 1 2).getLastD 0 = 1 := by
    rw [linspace]
    norm_num [List.range_succ]
  rw [hlast] at hinst
  norm_num at hinst

/-- C2 amended: for every `(totalSamples, spec)` with the spec's invariants
(`sustain ∈ [0, 1]`, non-negative curve exponents), the envelope has
exactly `totalSamples` entries and every entry — in particular the final
one — lies in `[0, max(1, sustain)] = [0, 1]`; the final entry need not be
`≤ sustain` (it is `1` when the attack ramp fills the buffer). -/
theorem c2_amended_envelope (num sr : ℕ) (cfg : EnvelopeConfig)
    (hs0 : 0 ≤ cfg.sustain) (hs1 : cfg.sustain ≤ 1)
    (hac : 0 ≤ cfg.attack_curve) (hdc : 0 ≤ cfg.decay_curve)
    (hrc : 0 ≤ cfg.release_curve) :
    (adsr num sr cfg).length = num ∧
    (∀ x ∈ adsr num sr cfg, 0 ≤ x ∧ x ≤ 1) ∧
    (adsr num sr cfg).getLastD 0 ≤ max 1 cfg.sustain := by
  have hcore := adsrCounts_bounds num (pyTrunc (cfg.attack * sr))
    (pyTrunc (cfg.decay * sr)) (pyTrunc (cfg.release * sr)) cfg hs0 hs1 hac hdc hrc
  refine ⟨hcore.1, hcore.2, ?_⟩
  have := getLastD_bounds (adsrCounts num (pyTrunc (cfg.attack * sr))
    (pyTrunc (cfg.decay * sr)) (pyTrunc (cfg.release * sr)) cfg) 0 le_rfl
    zero_le_one hcore.2
  exact le_trans this.2 (le_max_left _ _)

/-- Witness for C2 amended at `totalSamples = 4`, sample rate `10`, the
default envelope config. -/
theorem c2_amended_envelope_witness :
    (adsr 4 10 envelopeConfigDefault).length = 4 ∧
    (∀ x ∈ adsr 4 10 envelopeConfigDefault, 0 ≤ x ∧ x ≤ 1) ∧
    (adsr 4 10 envelopeConfigDefault).getLastD 0 ≤
      max 1 envelopeConfigDefault.sustain :=
  c2_amended_envelope 4 10 envelopeConfigDefault
    (by norm_num [envelopeConfigDefault]) (by norm_num [envelopeConfigDefault])
    (by norm_num [envelopeConfigDefault]) (by norm_num [envelopeConfigDefault])
    (by norm_num [envelopeConfigDefault])

/-! ## Theorems for C3 (release shortening under the sustain clamp) -/

/-- A zero-count attack segment is empty. -/
theorem attackSeg_zero (cfg : EnvelopeConfig) : attackSeg cfg 0 = [] :=
  List.length_eq_zero.1 (attackSeg_length cfg 0)

/-- A zero-count decay segment is empty. -/
theorem decaySeg_zero (cfg : EnvelopeConfig) : decaySeg cfg 0 = [] :=
  List.length_eq_zero.1 (decaySeg_length cfg 0)

/-- A zero-count release segment is empty. -/
theorem releaseSeg_zero (cfg : EnvelopeConfig) (s : ℝ) : releaseSeg cfg s 0 = [] :=
  List.length_eq_zero.1 (releaseSeg_length cfg s 0)

/-- The attack prefix under the amended hypotheses. -/
theorem adsrE1_eq (num : ℕ) (a : ℤ) (cfg : EnvelopeConfig) (ha : 0 ≤ a)
    (hle : a ≤ (num : ℤ)) : adsrE1 num a cfg = attackSeg cfg a.toNat := by
  rw [adsrE1]
  rcases eq_or_lt_of_le ha with haz | hap
  · rw [if_neg (by omega), ← haz]
    exact (attackSeg_zero cfg).symm
  · rw [if_pos ⟨hap, hle⟩]

/-- The attack+decay prefix under the amended hypotheses. -/
theorem adsrE2_eq (num : ℕ) (a d : ℤ) (cfg : EnvelopeConfig) (ha : 0 ≤ a)
    (hd : 0 ≤ d) (had : a + d ≤ (num : ℤ)) :
    adsrE2 num a d cfg = attackSeg cfg a.toNat ++ decaySeg cfg d.toNat := by
  have hE1 := adsrE1_eq num a cfg ha (by omega)
  rw [adsrE2, hE1, attackSeg_length]
  rcases eq_or_lt_of_le hd with hdz | hdp
  · rw [if_neg (by omega), ← hdz, Int.toNat_zero, decaySeg_zero]
  · rw [if_pos ⟨hdp, by omega⟩]

/-- C3 counterexample: with `totalSamples = 10`, `attack = decay = 6`
samples and `release = 0`, the decay write is skipped entirely (its guard
`pos + decay_samples <= num_samples` fails), so the decay count is not
preserved: sample 6 of the envelope is the untouched zero, not the decay
ramp's first value `1`. -/
theorem c3_counterexample : ¬ c3_claim := by
  intro h
  obtain ⟨rel, heq, -⟩ := h 10 6 6 0 envelopeConfigDefault (by norm_num)
    (by norm_num) (by norm_num) (by norm_num)
  have hc : adsrCounts 10 6 6 0 envelopeConfigDefault =
      attackSeg envelopeConfigDefault 6 ++ List.replicate 4 0 := by
    rw [adsrCounts, adsrE4, adsrE3, adsrE2, adsrE1, adsrR, adsrS]
    norm_num [attackSeg_length]
    rfl
  rw [hc] at heq
  have h6 : ((6 : ℤ).toNat) = 6 := rfl
  rw [h6] at heq
  have hgd := congrArg (fun l => l.getD 6 0) heq
  simp only at hgd
  rw [List.getD_append_right _ _ _ _ (by rw [attackSeg_length]),
    List.getD_append_right _ _ _ _ (by rw [attackSeg_length]),
    attackSeg_length, Nat.sub_self, List.replicate_succ,
    List.getD_cons_zero] at hgd
  rw [List.getD_append _ _ _ _ (by rw [decaySeg_length]; norm_num)] at hgd
  have hdecay : (decaySeg envelopeConfigDefault 6).getD 0 0 = 1 := by
    rw [decaySeg, if_neg (by norm_num [envelopeConfigDefault]), linspace,
      if_neg (by norm_num), show (6 : ℕ) = 5 + 1 from rfl,
      List.range_succ_eq_map]
    norm_num
  rw [hdecay] at hgd
  norm_num at hgd

/-- C3 amended: the tiling holds provided additionally that attack and
decay together fit, `a + d ≤ totalSamples`: then the sustain count clamps
to zero, only the release is shortened — to `totalSamples - a - d` — and
attack, decay, and the shortened release exactly tile `totalSamples`.
(When `a + d > totalSamples`, the code skips the decay and release
writes entirely, so the original claim fails.) -/
theorem c3_amended_release_shortened (num : ℕ) (a d r0 : ℤ)
    (cfg : EnvelopeConfig) (ha : 0 ≤ a) (hd : 0 ≤ d)
    (hsum : (num : ℤ) < a + d + r0) (had : a + d ≤ (num : ℤ)) :
    adsrCounts num a d r0 cfg =
      attackSeg cfg a.toNat ++ (decaySeg cfg d.toNat ++
        releaseSeg cfg ((adsrE2 num a d cfg).getLastD cfg.sustain)
          ((num : ℤ) - a - d).toNat) ∧
    a.toNat + (d.toNat + ((num : ℤ) - a - d).toNat) = num := by
  have hS : adsrS num a d r0 = 0 := by
    rw [adsrS]
    omega
  have hR : adsrR num a d r0 = (num : ℤ) - a - d := by
    rw [adsrR, hS, if_pos le_rfl]
  have hE2 := adsrE2_eq num a d cfg ha hd had
  have hE3 : adsrE3 num a d r0 cfg = adsrE2 num a d cfg := by
    rw [adsrE3, hS, if_neg (by norm_num), List.append_nil]
  have hlen2 : ((adsrE2 num a d cfg).length : ℤ) = a + d := by
    rw [hE2, List.length_append, attackSeg_length, decaySeg_length]
    push_cast
    omega
  have hE4 : adsrE4 num a d r0 cfg = adsrE2 num a d cfg ++
      releaseSeg cfg ((adsrE2 num a d cfg).getLastD cfg.sustain)
        ((num : ℤ) - a - d).toNat := by
    rw [adsrE4, hE3, hR, hlen2]
    rcases eq_or_lt_of_le had with heqn | hltn
    · rw [if_neg (by omega), show ((num : ℤ) - a - d).toNat = 0 by omega,
        releaseSeg_zero, List.append_nil]
    · rw [if_pos ⟨by omega, by omega⟩, min_eq_left (by omega), sub_sub]
  have hlen4 : (adsrE4 num a d r0 cfg).length = num := by
    rw [hE4, List.length_append, hE2, List.length_append, attackSeg_length,
      decaySeg_length, releaseSeg_length]
    omega
  constructor
  · rw [adsrCounts, hlen4, Nat.sub_self, List.replicate_zero, List.append_nil,
      hE4, hE2, List.append_assoc]
  · omega

/-- Witness for C3 amended at `totalSamples = 10`, counts
`attack = decay = 4`, `release = 5` (so `4 + 4 + 5 > 10` but
`4 + 4 ≤ 10`). -/
theorem c3_amended_release_shortened_witness :
    adsrCounts 10 4 4 5 envelopeConfigDefault =
      attackSeg envelopeConfigDefault ((4 : ℤ).toNat) ++
        (decaySeg envelopeConfigDefault ((4 : ℤ).toNat) ++
          releaseSeg envelopeConfigDefault
            ((adsrE2 10 4 4 envelopeConfigDefault).getLastD
              envelopeConfigDefault.sustain)
            (((10 : ℕ) : ℤ) - 4 - 4).toNat) ∧
    ((4 : ℤ).toNat) + (((4 : ℤ).toNat) + (((10 : ℕ) : ℤ) - 4 - 4).toNat) = 10 :=
  c3_amended_release_shortened 10 4 4 5 envelopeConfigDefault (by norm_num)
    (by norm_num) (by norm_num) (by norm_num)

/-! ## Theorems for C8 (spectrum analysis) -/

/-- C8: whenever the detected peak frequency is positive, the analyzer
reports the peak bin of the DC-zeroed magnitude spectrum as
`detectedFrequency = k·sr/n`, the expected frequency from the pitch law,
`errorCents = 1200·log2(detected/expected)`, and sets the accuracy flag
exactly when `|errorCents|` is strictly below the 10-cent threshold. -/
theorem c8_spectrum_analysis (audio : List ℝ) (sr : ℕ) (midi : ℤ)
    (hpos : 0 < (analyze_spectrum audio sr midi).detected_freq) :
    (analyze_spectrum audio sr midi).detected_freq =
      (argmaxIdx (zeroDC (rfftMagnitude audio)) : ℝ) * (sr : ℝ) /
        (audio.length : ℝ) ∧
    (analyze_spectrum audio sr midi).expected_freq = midi_to_frequency midi ∧
    (analyze_spectrum audio sr midi).error_cents =
      1200 * Real.logb 2 ((analyze_spectrum audio sr midi).detected_freq /
        (analyze_spectrum audio sr midi).expected_freq) ∧
    ((analyze_spectrum audio sr midi).is_accurate = true ↔
      |(analyze_spectrum audio sr midi).error_cents| <
        PITCH_ERROR_THRESHOLD_CENTS) ∧
    PITCH_ERROR_THRESHOLD_CENTS = 10 := by
  refine ⟨rfl, rfl, ?_, ?_, rfl⟩
  · show (if 0 < (analyze_spectrum audio sr midi).detected_freq then
        1200 * Real.logb 2 ((analyze_spectrum audio sr midi).detected_freq /
          midi_to_frequency midi)
      else 999) = _
    rw [if_pos hpos]
    rfl
  · show (if |(analyze_spectrum audio sr midi).error_cents| <
        PITCH_ERROR_THRESHOLD_CENTS then true else false) = true ↔ _
    split
    · simp_all
    · simp_all

/-- Witness for C8: the two-sample buffer `[1, -1]` at sample rate `2` has
its spectral peak at bin 1, frequency `1 > 0`. -/
theorem c8_spectrum_analysis_witness :
    (analyze_spectrum [(1 : ℝ), -1] 2 69).error_cents =
      1200 * Real.logb 2 ((analyze_spectrum [(1 : ℝ), -1] 2 69).detected_freq /
        (analyze_spectrum [(1 : ℝ), -1] 2 69).expected_freq) ∧
    ((analyze_spectrum [(1 : ℝ), -1] 2 69).is_accurate = true ↔
      |(analyze_spectrum [(1 : ℝ), -1] 2 69).error_cents| <
        PITCH_ERROR_THRESHOLD_CENTS) := by
  have hbin0 : rfftBin [(1 : ℝ), -1] 0 = 0 := by
    rw [rfftBin, show ([(1 : ℝ), -1] : List ℝ).length = 2 from rfl,
      Finset.sum_range_succ, Finset.sum_range_succ, Finset.sum_range_zero]
    norm_num
  have hbin1 : rfftBin [(1 : ℝ), -1] 1 = 2 := by
    rw [rfftBin]
    rw [show ([(1 : ℝ), -1] : List ℝ).length = 2 from rfl,
      Finset.sum_range_succ, Finset.sum_range_succ, Finset.sum_range_zero]
    have he0 : Complex.exp (-2 * (Real.pi : ℂ) * Complex.I * ((0 : ℕ) : ℂ) *
        ((1 : ℕ) : ℂ) / ((2 : ℕ) : ℂ)) = 1 := by
      rw [show (-2 * (Real.pi : ℂ) * Complex.I * ((0 : ℕ) : ℂ) *
        ((1 : ℕ) : ℂ) / ((2 : ℕ) : ℂ)) = 0 by push_cast; ring]
      exact Complex.exp_zero
    have he1 : Complex.exp (-2 * (Real.pi : ℂ) * Complex.I * ((1 : ℕ) : ℂ) *
        ((1 : ℕ) : ℂ) / ((2 : ℕ) : ℂ)) = -1 := by
      rw [show (-2 * (Real.pi : ℂ) * Complex.I * ((1 : ℕ) : ℂ) *
        ((1 : ℕ) : ℂ) / ((2 : ℕ) : ℂ)) = -((Real.pi : ℂ) * Complex.I) by
        push_cast; ring]
      rw [Complex.exp_neg, Complex.exp_pi_mul_I]
      norm_num
    rw [he0, he1]
    norm_num
  have hmag : rfftMagnitude [(1 : ℝ), -1] = [0, 2] := by
    rw [rfftMagnitude]
    rw [show ([(1 : ℝ), -1] : List ℝ).length / 2 + 1 = 2 from rfl]
    rw [show List.range 2 = [0, 1] by rfl]
    rw [List.map_cons, List.map_cons, List.map_nil, hbin0, hbin1]
    norm_num
  have hdet : (analyze_spectrum [(1 : ℝ), -1] 2 69).detected_freq = 1 := by
    show (argmaxIdx (zeroDC (rfftMagnitude [(1 : ℝ), -1])) : ℝ) * ((2 : ℕ) : ℝ) /
      (([(1 : ℝ), -1] : List ℝ).length : ℝ) = 1
    rw [hmag]
    rw [show zeroDC [0, 2] = [0, 2] from rfl]
    have hidx : argmaxIdx [(0 : ℝ), 2] = 1 := by
      rw [argmaxIdx, argmaxAux, if_pos (by norm_num), argmaxAux]
    rw [hidx]
    norm_num
  have hpos : 0 < (analyze_spectrum [(1 : ℝ), -1] 2 69).detected_freq := by
    rw [hdet]
    norm_num
  have h := c8_spectrum_analysis [(1 : ℝ), -1] 2 69 hpos
  exact ⟨h.2.2.1, h.2.2.2.1⟩

end MusicLab
